import Mathlib

/-!
Shallow embedding of `xau_once.py`, a run-once trading-signal checker.

Python floats are modelled as rationals, pandas cells that may be NaN or
fail numeric coercion as `Option ℚ`, exceptions as `Except`, and the
external data source (yfinance `download` / `history`) as a record of
functions supplied as a parameter.  The external `ta` indicator library
is likewise abstracted as a record of functions from the close series to
option-valued columns; the repository's own indicator code (the
`macd_hist` difference column and the `dropna` of warm-up rows) is
embedded concretely.
-/

namespace XauOnce

/-- CONFIG constant `BARS = 220` from the source. -/
def BARS : Nat := 220

/-- CONFIG constant `FRESH_WINDOW_MIN = 4.0` (minutes). -/
def FRESH_WINDOW_MIN : ℚ := 4

/-- CONFIG constant `RSI_BUY_MIN = 55.0`. -/
def RSI_BUY_MIN : ℚ := 55

/-- CONFIG constant `RSI_SELL_MAX = 45.0`. -/
def RSI_SELL_MAX : ℚ := 45

/-- CONFIG constant `MACD_HIST_MIN = 0.02`. -/
def MACD_HIST_MIN : ℚ := 1/50

/-- Python `str.lower()` (character-wise lowercasing). -/
def lowerStr (s : String) : String := String.map Char.toLower s

/-- Python `s.endswith(key)`: `key` is a suffix of `s`. -/
def strEndsWith (s key : String) : Bool := decide (key.data <:+ s.data)

/-- Python `key in s`: `key` is a contiguous substring of `s`. -/
def strContainsSub (s key : String) : Bool := decide (key.data <:+: s.data)

/-- The `_pick` helper of `fetch_df`: lowercase the key, then try an exact
(case-insensitive) label match, then a label ending with the key, then a
label containing the key; `none` models the final `raise KeyError(key)`. -/
def _pick (cols : List String) (key0 : String) : Option String :=
  let key := lowerStr key0
  match cols.find? (fun c => lowerStr c == key) with
  | some c => some c
  | none =>
    match cols.find? (fun c => strEndsWith (lowerStr c) key) with
    | some c => some c
    | none => cols.find? (fun c => strContainsSub (lowerStr c) key)

/-- A raw fetched frame after `_flatten(...).reset_index()`: the parsed time
column, and the labelled data columns whose cells are `none` when the cell is
NaN or fails `pd.to_numeric(errors="coerce")`. -/
structure RawTable where
  times : List ℚ
  cols : List (String × List (Option ℚ))

/-- The column labels of a raw frame (`df.columns`). -/
def RawTable.labels (t : RawTable) : List String := t.cols.map Prod.fst

/-- Column access `df[c]` by label (first column bearing the label). -/
def RawTable.colData (t : RawTable) (lbl : String) : List (Option ℚ) :=
  ((t.cols.find? (fun p => p.fst == lbl)).map Prod.snd).getD []

/-- `_pick` applied to a frame, returning the selected column's cells. -/
def pickCol (t : RawTable) (key : String) : Option (List (Option ℚ)) :=
  (_pick t.labels key).map t.colData

/-- Pandas `df.empty` (no rows). -/
def RawTable.isEmpty (t : RawTable) : Bool := t.times.isEmpty

/-- One normalized OHLCV bar; all five numeric fields are total (non-null)
because rows with any unresolved cell are dropped before a `Bar` is built. -/
structure Bar where
  time : ℚ
  o : ℚ
  h : ℚ
  l : ℚ
  c : ℚ
  v : ℚ
deriving DecidableEq

/-- Assemble the `out` frame row-wise and apply `out.dropna()`: a row
survives exactly when all five coerced cells are defined. -/
def buildRows : List ℚ → List (Option ℚ) → List (Option ℚ) → List (Option ℚ) →
    List (Option ℚ) → List (Option ℚ) → List Bar
  | t :: ts, o :: os, h :: hs, l :: ls, c :: cs, v :: vs =>
    match o, h, l, c, v with
    | some o1, some h1, some l1, some c1, some v1 =>
      ⟨t, o1, h1, l1, c1, v1⟩ :: buildRows ts os hs ls cs vs
    | _, _, _, _, _ => buildRows ts os hs ls cs vs
  | _, _, _, _, _, _ => []

/-- Pandas `df.tail(n)`: the last `n` rows. -/
def takeLast {α : Type} (n : Nat) (l : List α) : List α := l.drop (l.length - n)

/-- The cap `if len(out) > BARS: out = out.tail(BARS)`. -/
def truncateBars (rows : List Bar) : List Bar :=
  if rows.length > BARS then takeLast BARS rows else rows

/-- The four OHLC picks; the error carries the first key that failed
(`raise KeyError(key)` inside `_pick`). -/
def pickOHLC (t : RawTable) :
    Except String (List (Option ℚ) × List (Option ℚ) × List (Option ℚ) × List (Option ℚ)) :=
  match pickCol t ("open") with
  | none => .error ("open")
  | some o =>
    match pickCol t ("high") with
    | none => .error ("high")
    | some h =>
      match pickCol t ("low") with
      | none => .error ("low")
      | some l =>
        match pickCol t ("close") with
        | none => .error ("close")
        | some c => .ok (o, h, l, c)

/-- The tail of a successful candidate fetch: volume pick with the
zero-filled fallback (`pd.Series([0]*len(df0))`), row assembly, `dropna`,
truncation to `BARS`, and the symbol tag (`out.attrs["symbol"] = sym`). -/
def normalizeFrom (sym : String) (t : RawTable) (o h l c : List (Option ℚ)) :
    String × List Bar :=
  let v := (pickCol t ("volume")).getD (List.replicate t.times.length (some 0))
  (sym, truncateBars (buildRows t.times o h l c v))

/-- The external data source: `yf.download` and `yf.Ticker(...).history`,
each returning a frame or an exception message. -/
structure Source where
  download : String → Except String RawTable
  history : String → Except String RawTable

/-- One iteration of the candidate loop in `fetch_df`: download, emptiness
check, OHLC resolution with the secondary `history()` fetch on `KeyError`,
then normalization.  The error value is the exception message that the
outer loop would record in `last_err`. -/
def fetchOne (S : Source) (sym : String) : Except String (String × List Bar) :=
  match S.download sym with
  | .error e => .error e
  | .ok df0 =>
    if df0.isEmpty then .error ("empty")
    else
      match pickOHLC df0 with
      | .ok (o, h, l, c) => .ok (normalizeFrom sym df0 o h l c)
      | .error _ =>
        match S.history sym with
        | .error e => .error e
        | .ok dfh =>
          if dfh.isEmpty then .error ("history empty")
          else
            match pickOHLC dfh with
            | .ok (o, h, l, c) => .ok (normalizeFrom sym dfh o h l c)
            | .error k => .error (("KeyError: ") ++ k)

/-- The candidate loop with the `last_err` accumulator; the final
`raise RuntimeError(f"all candidates failed: \x7blast_err\x7d")` is the
`.error` carrying the last recorded failure. -/
def fetchLoop (S : Source) : List String → Option String →
    Except (Option String) (String × List Bar)
  | [], lastErr => .error lastErr
  | sym :: rest, lastErr =>
    match fetchOne S sym with
    | .ok r => .ok r
    | .error e => fetchLoop S rest (some e)

/-- `fetch_df(candidates)`: try the candidates in order, `last_err`
starting as `None`. -/
def fetch_df (S : Source) (cands : List String) : Except (Option String) (String × List Bar) :=
  fetchLoop S cands none

/-- One indicator-augmented bar (a row of `add_indicators`' output after
`dropna`): every indicator is defined. -/
structure ABar where
  time : ℚ
  o : ℚ
  h : ℚ
  l : ℚ
  c : ℚ
  v : ℚ
  ema_fast : ℚ
  ema_slow : ℚ
  rsi : ℚ
  macd : ℚ
  macd_signal : ℚ
  macd_hist : ℚ
  atr : ℚ
deriving DecidableEq

/-- The external `ta` library: each indicator maps the input series to a
column of the same intent, with `none` cells for the NaN warm-up rows. -/
structure IndParams where
  emaFast : List ℚ → List (Option ℚ)
  emaSlow : List ℚ → List (Option ℚ)
  rsiOf : List ℚ → List (Option ℚ)
  macdOf : List ℚ → List (Option ℚ)
  macdSignalOf : List ℚ → List (Option ℚ)
  atrOf : List ℚ → List ℚ → List ℚ → List (Option ℚ)

/-- Pandas column subtraction `out["macd"] - out["macd_signal"]`:
pointwise, NaN-propagating. -/
def optSub (xs ys : List (Option ℚ)) : List (Option ℚ) :=
  List.zipWith (fun a b =>
    match a, b with
    | some x, some y => some (x - y)
    | _, _ => none) xs ys

/-- Cell `i` of an option-valued column, flattened. -/
def getO (l : List (Option ℚ)) (i : Nat) : Option ℚ := l[i]?.bind id

/-- `add_indicators(df)`: compute the indicator columns (the library calls
abstracted by `P`), the concrete `macd_hist` difference column, then
`dropna().reset_index(drop=True)`: keep exactly the rows where every
indicator is defined, in order. -/
def add_indicators (P : IndParams) (bars : List Bar) : List ABar :=
  let cs := bars.map Bar.c
  let ef := P.emaFast cs
  let es := P.emaSlow cs
  let rs := P.rsiOf cs
  let md := P.macdOf cs
  let ms := P.macdSignalOf cs
  let hist := optSub md ms
  let av := P.atrOf (bars.map Bar.h) (bars.map Bar.l) cs
  (List.range bars.length).filterMap (fun i =>
    match bars[i]?, getO ef i, getO es i, getO rs i, getO md i, getO ms i,
        getO hist i, getO av i with
    | some b, some x1, some x2, some x3, some x4, some x5, some x6, some x7 =>
      some ⟨b.time, b.o, b.h, b.l, b.c, b.v, x1, x2, x3, x4, x5, x6, x7⟩
    | _, _, _, _, _, _, _, _ => none)

/-- The three possible classifications. -/
inductive Signal where
  | BUY
  | SELL
  | WAIT
deriving DecidableEq

/-- `cross_up`: previous fast EMA at or below slow, current strictly above. -/
def cross_up (prev now : ABar) : Prop :=
  prev.ema_fast ≤ prev.ema_slow ∧ now.ema_fast > now.ema_slow

/-- `cross_dn`: previous fast EMA at or above slow, current strictly below. -/
def cross_dn (prev now : ABar) : Prop :=
  prev.ema_fast ≥ prev.ema_slow ∧ now.ema_fast < now.ema_slow

/-- `buy_ok`: RSI, MACD-histogram and MACD-line filter for a BUY. -/
def buy_ok (now : ABar) : Prop :=
  now.rsi ≥ RSI_BUY_MIN ∧ now.macd_hist ≥ MACD_HIST_MIN ∧ now.macd > now.macd_signal

/-- `sell_ok`: RSI, MACD-histogram and MACD-line filter for a SELL. -/
def sell_ok (now : ABar) : Prop :=
  now.rsi ≤ RSI_SELL_MAX ∧ now.macd_hist ≤ -MACD_HIST_MIN ∧ now.macd < now.macd_signal

instance (prev now : ABar) : Decidable (cross_up prev now) := by
  unfold cross_up; infer_instance

instance (prev now : ABar) : Decidable (cross_dn prev now) := by
  unfold cross_dn; infer_instance

instance (now : ABar) : Decidable (buy_ok now) := by
  unfold buy_ok; infer_instance

instance (now : ABar) : Decidable (sell_ok now) := by
  unfold sell_ok; infer_instance

/-- `generate_signal(prev, now)`: the two early returns become a nested
conditional. -/
def generate_signal (prev now : ABar) : Signal :=
  if cross_up prev now ∧ buy_ok now then .BUY
  else if cross_dn prev now ∧ sell_ok now then .SELL
  else .WAIT

/-- Modelled from the claim wording of C10 (not from the source): the
variant of `generate_signal` with the momentum-line comparison conjunct
removed from each filter. -/
def generate_signal_simplified (prev now : ABar) : Signal :=
  if cross_up prev now ∧ now.rsi ≥ RSI_BUY_MIN ∧ now.macd_hist ≥ MACD_HIST_MIN then .BUY
  else if cross_dn prev now ∧ now.rsi ≤ RSI_SELL_MAX ∧ now.macd_hist ≤ -MACD_HIST_MIN then .SELL
  else .WAIT

/-- `last_bar_is_fresh(last_time_utc)` with the wall clock passed
explicitly; times are UTC instants in seconds, so the age in minutes is the
difference divided by 60. -/
def last_bar_is_fresh (last_time_utc now_utc : ℚ) : Bool :=
  let age_min := (now_utc - last_time_utc) / 60
  decide (0 ≤ age_min ∧ age_min ≤ FRESH_WINDOW_MIN)

/-- The content of the one console report line printed by `run_for`:
symbol, close price, whether the `(stale)` marker is present, and the
classification. -/
structure Report where
  sym : String
  close : ℚ
  stale : Bool
  side : Signal
deriving DecidableEq

/-- The observable outcome of one `run_for` call that did not raise: the
report line (if any) and the Telegram notification (if any), the latter
identified by the signal it announces. -/
structure RunOutput where
  report : Option Report
  notified : Option Signal
deriving DecidableEq

/-- `run_for(candidates)`: fetch (errors propagate), add indicators, skip
silently when fewer than two augmented bars remain, otherwise classify the
last pair; a stale last bar prints the `(stale)` report and returns before
any notification; a fresh BUY/SELL additionally notifies.  The symbol in
the report is the tag stored by `fetch_df` (`df.attrs["symbol"]`, always
present on success). -/
def run_for (S : Source) (P : IndParams) (now_utc : ℚ) (cands : List String) :
    Except (Option String) RunOutput :=
  match fetch_df S cands with
  | .error e => .error e
  | .ok (sym, bars) =>
    let df := add_indicators P bars
    if df.length < 2 then .ok ⟨none, none⟩
    else
      match df.reverse with
      | nw :: prevBar :: _ =>
        let side := generate_signal prevBar nw
        if !(last_bar_is_fresh nw.time now_utc) then
          .ok ⟨some ⟨sym, nw.c, true, side⟩, none⟩
        else
          .ok ⟨some ⟨sym, nw.c, false, side⟩,
            if side = .BUY ∨ side = .SELL then some side else none⟩
      | _ => .ok ⟨none, none⟩

/-- Outcome of one instrument group in `main`: the group's run output, or
the caught and logged exception (`print(f"[run] ... error: ...")`). -/
inductive GroupOutcome where
  | ok (out : RunOutput)
  | failed (e : Option String)
deriving DecidableEq

/-- The try/except body of `main`'s loop for one group. -/
def runGroup (S : Source) (P : IndParams) (now_utc : ℚ) (g : List String) : GroupOutcome :=
  match run_for S P now_utc g with
  | .ok o => .ok o
  | .error e => .failed e

/-- `main()`: evaluate every instrument group; a failure in one group is
caught and the loop continues with the next group. -/
def main (S : Source) (P : IndParams) (now_utc : ℚ) (groups : List (List String)) :
    List GroupOutcome :=
  groups.map (runGroup S P now_utc)

/-! Concrete instances used by the closed witness theorems. -/

/-- A two-cell column. -/
def colW (a b : ℚ) : List (Option ℚ) := [some a, some b]

/-- A well-formed two-row OHLCV frame with increasing times. -/
def tW : RawTable :=
  { times := [0, 300],
    cols := [(("Open"), colW 1 2), (("High"), colW 1 2), (("Low"), colW 1 2),
             (("Close"), colW 1 2), (("Volume"), colW 1 2)] }

/-- The bars produced from `tW`. -/
def barsW : List Bar := [⟨0, 1, 1, 1, 1, 1⟩, ⟨300, 2, 2, 2, 2, 2⟩]

/-- A source whose download always yields `tW`. -/
def SW : Source :=
  { download := fun _ => .ok tW, history := fun _ => .error ("no history") }

/-- A source that fails on the primary symbol and yields `tW` otherwise. -/
def S7 : Source :=
  { download := fun s => if s = ("GC=F") then .error ("boom") else .ok tW,
    history := fun _ => .error ("no history") }

/-- A frame resolving OHLC but with no volume-like column. -/
def tVol : RawTable :=
  { times := [0, 300],
    cols := [(("Open"), colW 1 2), (("High"), colW 1 2), (("Low"), colW 1 2),
             (("Close"), colW 1 2)] }

/-- A source delivering `tVol`. -/
def SVol : Source :=
  { download := fun _ => .ok tVol, history := fun _ => .error ("no history") }

/-- A one-row frame, leaving fewer than two augmented bars. -/
def t8 : RawTable :=
  { times := [0],
    cols := [(("Open"), [some 1]), (("High"), [some 1]), (("Low"), [some 1]),
             (("Close"), [some 1]), (("Volume"), [some 1])] }

/-- A source delivering `t8`. -/
def S8 : Source :=
  { download := fun _ => .ok t8, history := fun _ => .error ("no history") }

/-- A frame whose two rows carry the same timestamp. -/
def t9 : RawTable :=
  { times := [0, 0],
    cols := [(("Open"), colW 1 1), (("High"), colW 1 1), (("Low"), colW 1 1),
             (("Close"), colW 1 1), (("Volume"), colW 1 1)] }

/-- A source delivering the duplicate-timestamp frame `t9`. -/
def S9 : Source :=
  { download := fun _ => .ok t9, history := fun _ => .error ("no history") }

/-- The bars produced from `t9`: duplicate timestamps pass through. -/
def bars9 : List Bar := [⟨0, 1, 1, 1, 1, 1⟩, ⟨0, 1, 1, 1, 1, 1⟩]

/-- Indicator parameters that copy the close series into every column. -/
def P0 : IndParams :=
  { emaFast := fun cs => cs.map some, emaSlow := fun cs => cs.map some,
    rsiOf := fun cs => cs.map some, macdOf := fun cs => cs.map some,
    macdSignalOf := fun cs => cs.map some, atrOf := fun _ _ cs => cs.map some }

/-- The augmented bars `add_indicators P0 barsW` (histogram is zero). -/
def aW1 : ABar := ⟨0, 1, 1, 1, 1, 1, 1, 1, 1, 1, 1, 0, 1⟩

/-- Second augmented bar of `add_indicators P0 barsW`. -/
def aW2 : ABar := ⟨300, 2, 2, 2, 2, 2, 2, 2, 2, 2, 2, 0, 2⟩

/-- Indicator parameters forcing a BUY crossover on the two bars of
`barsW`: fast EMA crosses above slow, RSI 60, MACD 1 over signal 1/2. -/
def P4 : IndParams :=
  { emaFast := fun _ => [some 1, some 3], emaSlow := fun _ => [some 2, some 2],
    rsiOf := fun _ => [some 60, some 60], macdOf := fun _ => [some 1, some 1],
    macdSignalOf := fun _ => [some (1/2), some (1/2)],
    atrOf := fun _ _ _ => [some 1, some 1] }

/-- First augmented bar of `add_indicators P4 barsW`. -/
def aP41 : ABar := ⟨0, 1, 1, 1, 1, 1, 1, 2, 60, 1, 1/2, 1/2, 1⟩

/-- Second augmented bar of `add_indicators P4 barsW`. -/
def aP42 : ABar := ⟨300, 2, 2, 2, 2, 2, 3, 2, 60, 1, 1/2, 1/2, 1⟩

/-- The bars produced from `tVol` with the synthesized zero volume. -/
def barsVol : List Bar := [⟨0, 1, 1, 1, 1, 0⟩, ⟨300, 2, 2, 2, 2, 0⟩]

/-!
Theorems.
-/

/-- C1: `generate_signal` returns BUY exactly when crossover-up and the buy
filter hold, SELL exactly when crossover-down and the sell filter hold,
and WAIT otherwise. -/
theorem generate_signal_cases (prev now : ABar) :
    (generate_signal prev now = .BUY ↔ cross_up prev now ∧ buy_ok now)
  ∧ (generate_signal prev now = .SELL ↔ cross_dn prev now ∧ sell_ok now)
  ∧ (generate_signal prev now = .WAIT ↔
      ¬(cross_up prev now ∧ buy_ok now) ∧ ¬(cross_dn prev now ∧ sell_ok now)) := by
  have hmutex : ¬(cross_up prev now ∧ cross_dn prev now) := by
    rintro ⟨⟨_, h1⟩, ⟨_, h2⟩⟩
    exact lt_asymm h2 h1
  unfold generate_signal
  split_ifs with h1 h2
  · refine ⟨by simp [h1], ?_, ?_⟩
    · constructor
      · intro h; exact h.elim
      · rintro ⟨hdn, _⟩; exact absurd ⟨h1.1, hdn⟩ hmutex
    · constructor
      · intro h; exact h.elim
      · rintro ⟨hn, _⟩; exact absurd h1 hn
  · refine ⟨?_, by simp [h2], ?_⟩
    · constructor
      · intro h; exact h.elim
      · intro hc; exact absurd hc h1
    · constructor
      · intro h; exact h.elim
      · rintro ⟨_, hn⟩; exact absurd h2 hn
  · refine ⟨?_, ?_, by simp [h1, h2]⟩
    · constructor
      · intro h; exact h.elim
      · intro hc; exact absurd hc h1
    · constructor
      · intro h; exact h.elim
      · intro hc; exact absurd hc h2

/-- C2: `generate_signal` always returns one of BUY, SELL, WAIT, and the
crossover-up and crossover-down conditions are never both true, so the BUY
and SELL branches are never both enabled. -/
theorem generate_signal_total_mutex (prev now : ABar) :
    (generate_signal prev now = .BUY ∨ generate_signal prev now = .SELL ∨
      generate_signal prev now = .WAIT)
  ∧ ¬(cross_up prev now ∧ cross_dn prev now) := by
  constructor
  · unfold generate_signal
    split_ifs <;> simp
  · rintro ⟨⟨_, h1⟩, ⟨_, h2⟩⟩
    exact lt_asymm h2 h1

/-- C3: the freshness gate accepts exactly the ages (in minutes) in the
closed interval from 0 to the freshness window; the boundary age is fresh,
a strictly larger age is not, and a negative age is not. -/
theorem last_bar_is_fresh_boundary (lastT nowT : ℚ) :
    (last_bar_is_fresh lastT nowT = true ↔
      (0 ≤ (nowT - lastT) / 60 ∧ (nowT - lastT) / 60 ≤ FRESH_WINDOW_MIN))
  ∧ ((nowT - lastT) / 60 = FRESH_WINDOW_MIN → last_bar_is_fresh lastT nowT = true)
  ∧ (FRESH_WINDOW_MIN < (nowT - lastT) / 60 → last_bar_is_fresh lastT nowT = false)
  ∧ ((nowT - lastT) / 60 < 0 → last_bar_is_fresh lastT nowT = false) := by
  refine ⟨by simp [last_bar_is_fresh], ?_, ?_, ?_⟩
  · intro h
    simp only [last_bar_is_fresh]
    exact decide_eq_true (by rw [h]; norm_num [FRESH_WINDOW_MIN])
  · intro h
    simp only [last_bar_is_fresh]
    exact decide_eq_false (fun hc => absurd h (not_lt.mpr hc.2))
  · intro h
    simp only [last_bar_is_fresh]
    exact decide_eq_false (fun hc => absurd h (not_lt.mpr hc.1))

/-- C3 witness: age exactly 4 minutes (240 s) is fresh, 241 s is not,
and a bar 10 s in the future is not. -/
theorem last_bar_is_fresh_boundary_witness :
    last_bar_is_fresh 0 240 = true ∧ last_bar_is_fresh 0 241 = false ∧
    last_bar_is_fresh 10 0 = false :=
  ⟨(last_bar_is_fresh_boundary 0 240).2.1 (by norm_num [FRESH_WINDOW_MIN]),
   (last_bar_is_fresh_boundary 0 241).2.2.1 (by norm_num [FRESH_WINDOW_MIN]),
   (last_bar_is_fresh_boundary 10 0).2.2.2 (by norm_num)⟩

/-- An exact (case-insensitive) label match is in particular a substring
match. -/
theorem eq_contains {c k : String} (h : lowerStr c = k) :
    strContainsSub (lowerStr c) k = true := by
  rw [h]
  exact decide_eq_true List.infix_rfl

/-- A suffix match is in particular a substring match. -/
theorem ends_contains {s k : String} (h : strEndsWith s k = true) :
    strContainsSub s k = true :=
  decide_eq_true (of_decide_eq_true h).isInfix

/-- `_pick` fails exactly when no label contains the key. -/
theorem pick_eq_none_iff (cols : List String) (key : String) :
    _pick cols key = none ↔
      ∀ c ∈ cols, strContainsSub (lowerStr c) (lowerStr key) = false := by
  constructor
  · intro h c hc
    simp only [_pick] at h
    split at h
    · exact Option.noConfusion h
    · split at h
      · exact Option.noConfusion h
      · simpa using List.find?_eq_none.mp h c hc
  · intro h
    have hC : cols.find? (fun c => strContainsSub (lowerStr c) (lowerStr key)) = none :=
      List.find?_eq_none.mpr (fun x hx => by simp [h x hx])
    have hE : cols.find? (fun c => lowerStr c == lowerStr key) = none := by
      refine List.find?_eq_none.mpr (fun x hx hbeq => ?_)
      have hx2 : lowerStr x = lowerStr key := by simpa using hbeq
      have h2 := eq_contains hx2
      rw [h x hx] at h2
      exact Bool.noConfusion h2
    have hS : cols.find? (fun c => strEndsWith (lowerStr c) (lowerStr key)) = none := by
      refine List.find?_eq_none.mpr (fun x hx hends => ?_)
      have h2 := ends_contains (by simpa using hends)
      rw [h x hx] at h2
      exact Bool.noConfusion h2
    simp [_pick, hE, hS, hC]

/-- Whatever `_pick` returns is a column label containing the key. -/
theorem pick_some_mem (cols : List String) (key c : String)
    (h : _pick cols key = some c) :
    c ∈ cols ∧ strContainsSub (lowerStr c) (lowerStr key) = true := by
  simp only [_pick] at h
  split at h
  · next cE hE =>
    cases h
    refine ⟨List.mem_of_find?_eq_some hE, ?_⟩
    exact eq_contains (by simpa using List.find?_some hE)
  · split at h
    · next cS hS =>
      cases h
      exact ⟨List.mem_of_find?_eq_some hS, ends_contains (by simpa using List.find?_some hS)⟩
    · exact ⟨List.mem_of_find?_eq_some h, by simpa using List.find?_some h⟩

/-- When an exact (case-insensitive) label match exists, `_pick` returns an
exact match. -/
theorem pick_exact_first (cols : List String) (key : String)
    (h : ∃ c ∈ cols, lowerStr c = lowerStr key) :
    ∃ c, _pick cols key = some c ∧ lowerStr c = lowerStr key := by
  obtain ⟨c0, hc0, hc0e⟩ := h
  rcases hE : cols.find? (fun c => lowerStr c == lowerStr key) with _ | cE
  · exact absurd (by simpa using hc0e) (List.find?_eq_none.mp hE c0 hc0)
  · exact ⟨cE, by simp [_pick, hE], by simpa using List.find?_some hE⟩

/-- When no exact match exists but a suffix match does, `_pick` returns a
suffix match. -/
theorem pick_ends_second (cols : List String) (key : String)
    (hno : ∀ c ∈ cols, lowerStr c ≠ lowerStr key)
    (h : ∃ c ∈ cols, strEndsWith (lowerStr c) (lowerStr key) = true) :
    ∃ c, _pick cols key = some c ∧ strEndsWith (lowerStr c) (lowerStr key) = true := by
  have hE : cols.find? (fun c => lowerStr c == lowerStr key) = none :=
    List.find?_eq_none.mpr (fun x hx hbeq => hno x hx (by simpa using hbeq))
  obtain ⟨c0, hc0, hc0s⟩ := h
  rcases hS : cols.find? (fun c => strEndsWith (lowerStr c) (lowerStr key)) with _ | cS
  · exact absurd hc0s (List.find?_eq_none.mp hS c0 hc0)
  · exact ⟨cS, by simp [_pick, hE, hS], by simpa using List.find?_some hS⟩

/-- `_pick` depends on the key only through its lowercasing. -/
theorem pick_key_insensitive (cols : List String) (key key2 : String)
    (h : lowerStr key = lowerStr key2) :
    _pick cols key = _pick cols key2 := by
  simp only [_pick]
  rw [h]

/-- C5: column resolution is case-insensitive and ordered — an exact
(case-insensitive) label match is preferred, then a label ending with the
key, then a label containing it; resolution fails exactly when no label
contains the key. -/
theorem pick_resolution_order (cols : List String) (key : String) :
    (_pick cols key = none ↔
      ∀ c ∈ cols, strContainsSub (lowerStr c) (lowerStr key) = false)
  ∧ (∀ c, _pick cols key = some c →
      c ∈ cols ∧ strContainsSub (lowerStr c) (lowerStr key) = true)
  ∧ ((∃ c ∈ cols, lowerStr c = lowerStr key) →
      ∃ c, _pick cols key = some c ∧ lowerStr c = lowerStr key)
  ∧ ((∀ c ∈ cols, lowerStr c ≠ lowerStr key) →
      (∃ c ∈ cols, strEndsWith (lowerStr c) (lowerStr key) = true) →
      ∃ c, _pick cols key = some c ∧ strEndsWith (lowerStr c) (lowerStr key) = true)
  ∧ (∀ key2, lowerStr key = lowerStr key2 → _pick cols key = _pick cols key2) :=
  ⟨pick_eq_none_iff cols key, pick_some_mem cols key,
   pick_exact_first cols key, pick_ends_second cols key,
   pick_key_insensitive cols key⟩

/-- C5 witness: the source-prefixed, differently-cased label resolves by
the suffix rule, and resolution of a mixed-case key is case-insensitive. -/
theorem pick_resolution_order_witness :
    _pick [("Open_GC=F")] ("OPEN") = some ("Open_GC=F") ∧
    (∃ c, _pick [("GC=F_Open")] ("OPEN") = some c ∧
      strEndsWith (lowerStr c) (lowerStr ("OPEN")) = true) ∧
    _pick [("Close")] ("close") = _pick [("Close")] ("CLOSE") := by
  refine ⟨by with_unfolding_all rfl, ?_, ?_⟩
  · exact (pick_resolution_order [("GC=F_Open")] ("OPEN")).2.2.2.1
      (by with_unfolding_all decide) (by with_unfolding_all decide)
  · exact (pick_resolution_order [("Close")] ("close")).2.2.2.2 ("CLOSE")
      (by with_unfolding_all decide)

/-- C6: when open/high/low/close resolve but volume does not, the candidate
is not abandoned: a zero-filled volume column of the table's length is
synthesized and normalization proceeds — on the primary download path and
on the secondary history path alike. -/
theorem fetch_volume_zero_fill (S : Source) (sym : String) (t : RawTable)
    (o h l c : List (Option ℚ))
    (hne : t.isEmpty = false)
    (hohlc : pickOHLC t = .ok (o, h, l, c))
    (hv : pickCol t ("volume") = none) :
    (S.download sym = .ok t →
      fetchOne S sym = .ok (sym,
        truncateBars (buildRows t.times o h l c (List.replicate t.times.length (some 0)))))
  ∧ (∀ t0 k, S.download sym = .ok t0 → t0.isEmpty = false → pickOHLC t0 = .error k →
      S.history sym = .ok t →
      fetchOne S sym = .ok (sym,
        truncateBars (buildRows t.times o h l c (List.replicate t.times.length (some 0))))) := by
  have hnorm : normalizeFrom sym t o h l c =
      (sym, truncateBars (buildRows t.times o h l c
        (List.replicate t.times.length (some 0)))) := by
    simp [normalizeFrom, hv]
  constructor
  · intro hd
    simp [fetchOne, hd, hne, hohlc, hnorm]
  · intro t0 k hd hne0 hk hh
    simp [fetchOne, hd, hne0, hk, hh, hne, hohlc, hnorm]

/-- C6 witness: `tVol` has no volume-like column, yet its candidate
succeeds with a zero volume column. -/
theorem fetch_volume_zero_fill_witness :
    fetchOne SVol ("GC=F") = .ok (("GC=F"),
      truncateBars (buildRows tVol.times [some 1, some 2] [some 1, some 2]
        [some 1, some 2] [some 1, some 2]
        (List.replicate tVol.times.length (some 0)))) ∧
    fetchOne SVol ("GC=F") = .ok (("GC=F"), barsVol) := by
  constructor
  · exact (fetch_volume_zero_fill SVol ("GC=F") tVol ([some 1, some 2])
      ([some 1, some 2]) ([some 1, some 2]) ([some 1, some 2])
      (by with_unfolding_all rfl) (by with_unfolding_all rfl)
      (by with_unfolding_all rfl)).1 (by with_unfolding_all rfl)
  · with_unfolding_all rfl

/-- A successful candidate fetch is tagged with that candidate's symbol. -/
theorem fetchOne_ok_fst (S : Source) (sym : String) (r : String × List Bar)
    (h : fetchOne S sym = .ok r) : r.1 = sym := by
  simp only [fetchOne] at h
  split at h
  · exact Except.noConfusion h
  · split at h
    · exact Except.noConfusion h
    · split at h
      · cases h; rfl
      · split at h
        · exact Except.noConfusion h
        · split at h
          · exact Except.noConfusion h
          · split at h
            · cases h; rfl
            · exact Except.noConfusion h

/-- The candidate loop returns the first success, skipping failed
candidates, whatever the accumulated error. -/
theorem fetchLoop_first_success (S : Source) (sym : String) (r : String × List Bar)
    (hok : fetchOne S sym = .ok r) :
    ∀ (pre rest : List String) (acc : Option String),
      (∀ s ∈ pre, ∃ e, fetchOne S s = .error e) →
      fetchLoop S (pre ++ sym :: rest) acc = .ok r := by
  intro pre
  induction pre with
  | nil =>
    intro rest acc _
    simp [fetchLoop, hok]
  | cons s pre ih =>
    intro rest acc hpre
    obtain ⟨e, he⟩ := hpre s (List.mem_cons_self s pre)
    simp [fetchLoop, he, ih rest (some e) (fun x hx => hpre x (List.mem_cons_of_mem s hx))]

/-- When every candidate fails, the loop ends in the error recorded from
the last candidate. -/
theorem fetchLoop_all_fail (S : Source) (symL : String) (eL : String)
    (hL : fetchOne S symL = .error eL) :
    ∀ (pre : List String) (acc : Option String),
      (∀ s ∈ pre, ∃ e, fetchOne S s = .error e) →
      fetchLoop S (pre ++ [symL]) acc = .error (some eL) := by
  intro pre
  induction pre with
  | nil =>
    intro acc _
    simp [fetchLoop, hL]
  | cons s pre ih =>
    intro acc hpre
    obtain ⟨e, he⟩ := hpre s (List.mem_cons_self s pre)
    simp [fetchLoop, he, ih (some e) (fun x hx => hpre x (List.mem_cons_of_mem s hx))]

/-- C7: candidates are tried strictly in order — the first success is
returned, tagged with that candidate's symbol; when all candidates fail the
aggregate error carries the last candidate's failure; and that error is
caught per group by the runner, which processes every group regardless. -/
theorem fetch_df_fallback_order (S : Source) (P : IndParams) (now_utc : ℚ) :
    (∀ (pre : List String) (sym : String) (rest : List String) (r : String × List Bar),
      (∀ s ∈ pre, ∃ e, fetchOne S s = .error e) → fetchOne S sym = .ok r →
      fetch_df S (pre ++ sym :: rest) = .ok r ∧ r.1 = sym)
  ∧ (∀ (pre : List String) (symL : String) (eL : String),
      (∀ s ∈ pre, ∃ e, fetchOne S s = .error e) → fetchOne S symL = .error eL →
      fetch_df S (pre ++ [symL]) = .error (some eL))
  ∧ (∀ (g : List String) (gs : List (List String)),
      main S P now_utc (g :: gs) = runGroup S P now_utc g :: main S P now_utc gs)
  ∧ (∀ groups : List (List String), (main S P now_utc groups).length = groups.length) := by
  refine ⟨?_, ?_, ?_, ?_⟩
  · intro pre sym rest r hpre hok
    exact ⟨fetchLoop_first_success S sym r hok pre rest none hpre,
      fetchOne_ok_fst S sym r hok⟩
  · intro pre symL eL hpre hL
    exact fetchLoop_all_fail S symL eL hL pre none hpre
  · intro g gs
    simp [main]
  · intro groups
    simp [main]

/-- C7 witness: the primary symbol fails, the fallback succeeds, and the
result is tagged with the fallback symbol. -/
theorem fetch_df_fallback_order_witness :
    fetch_df S7 [("GC=F"), ("XAUUSD=X")] = .ok (("XAUUSD=X"), barsW) ∧
    ((("XAUUSD=X"), barsW) : String × List Bar).1 = ("XAUUSD=X") :=
  (fetch_df_fallback_order S7 P0 0).1 [("GC=F")] ("XAUUSD=X") []
    (("XAUUSD=X"), barsW)
    (by
      intro s hs
      have hs2 := List.mem_singleton.mp hs
      subst hs2
      exact ⟨("boom"), by with_unfolding_all rfl⟩)
    (by with_unfolding_all rfl)

/-- C8: with fewer than two augmented bars the group is skipped silently:
no error, no report line, no notification. -/
theorem run_for_insufficient_skip (S : Source) (P : IndParams) (now_utc : ℚ)
    (cands : List String) (sym : String) (bars : List Bar)
    (hf : fetch_df S cands = .ok (sym, bars))
    (hlen : (add_indicators P bars).length < 2) :
    run_for S P now_utc cands = .ok ⟨none, none⟩ := by
  simp only [run_for, hf]
  simp [hlen]

/-- C8 witness: a one-row fetch leaves one augmented bar, so the run
produces neither report nor notification and raises nothing. -/
theorem run_for_insufficient_skip_witness :
    run_for S8 P0 0 [("GC=F")] = .ok ⟨none, none⟩ :=
  run_for_insufficient_skip S8 P0 0 [("GC=F")] ("GC=F") [⟨0, 1, 1, 1, 1, 1⟩]
    (by with_unfolding_all rfl) (by with_unfolding_all decide)

/-- C4: when the latest augmented bar is stale, the classification is still
computed and reported with the stale marker, and no notification is sent —
whatever the classification. -/
theorem run_for_stale_no_notify (S : Source) (P : IndParams) (now_utc : ℚ)
    (cands : List String) (sym : String) (bars : List Bar)
    (nw prevBar : ABar) (rest : List ABar)
    (hf : fetch_df S cands = .ok (sym, bars))
    (hrev : (add_indicators P bars).reverse = nw :: prevBar :: rest)
    (hstale : last_bar_is_fresh nw.time now_utc = false) :
    run_for S P now_utc cands =
      .ok ⟨some ⟨sym, nw.c, true, generate_signal prevBar nw⟩, none⟩ := by
  have hlen : ¬ (add_indicators P bars).length < 2 := by
    have h2 := congrArg List.length hrev
    simp only [List.length_reverse, List.length_cons] at h2
    omega
  simp only [run_for, hf, hrev, hstale]
  simp [hlen]

/-- C4 witness: a BUY classification on a stale bar is reported with the
stale marker and not notified. -/
theorem run_for_stale_no_notify_witness :
    run_for SW P4 10000 [("GC=F")] =
      .ok ⟨some ⟨("GC=F"), 2, true, .BUY⟩, none⟩ := by
  have h := run_for_stale_no_notify SW P4 10000 [("GC=F")] ("GC=F") barsW
    aP42 aP41 [] (by with_unfolding_all rfl) (by with_unfolding_all rfl)
    (by with_unfolding_all rfl)
  rw [h]
  with_unfolding_all rfl

/-- The surviving row times form a sublist of the raw time column. -/
theorem buildRows_times_sublist (ts : List ℚ) :
    ∀ (os hs ls cs vs : List (Option ℚ)),
      ((buildRows ts os hs ls cs vs).map Bar.time).Sublist ts := by
  induction ts with
  | nil =>
    intro os hs ls cs vs
    simp [buildRows]
  | cons t ts ih =>
    intro os hs ls cs vs
    cases os with
    | nil => simp [buildRows]
    | cons o os =>
      cases hs with
      | nil => simp [buildRows]
      | cons h hs =>
        cases ls with
        | nil => simp [buildRows]
        | cons l ls =>
          cases cs with
          | nil => simp [buildRows]
          | cons c cs =>
            cases vs with
            | nil => simp [buildRows]
            | cons v vs =>
              cases o <;> cases h <;> cases l <;> cases c <;> cases v <;>
                simp only [buildRows, List.map_cons] <;>
                first
                  | exact List.Sublist.cons t (ih os hs ls cs vs)
                  | exact List.Sublist.cons₂ t (ih os hs ls cs vs)

/-- Truncation keeps a sublist of the rows. -/
theorem truncateBars_sublist (rows : List Bar) : (truncateBars rows).Sublist rows := by
  unfold truncateBars takeLast
  split
  · exact List.drop_sublist _ _
  · exact List.Sublist.refl _

/-- Truncation caps the length at `BARS`. -/
theorem truncateBars_length (rows : List Bar) : (truncateBars rows).length ≤ BARS := by
  unfold truncateBars takeLast
  split
  · next hgt =>
    simp only [List.length_drop]
    omega
  · next hle =>
    omega

/-- The normalized rows respect the cap, and strictly increasing raw times
yield strictly increasing bar times. -/
theorem normalized_bound (ts : List ℚ) (os hs ls cs vs : List (Option ℚ)) :
    (truncateBars (buildRows ts os hs ls cs vs)).length ≤ BARS ∧
    (ts.Pairwise (fun a b : ℚ => a < b) →
      ((truncateBars (buildRows ts os hs ls cs vs)).map Bar.time).Pairwise
        (fun a b => a < b)) := by
  refine ⟨truncateBars_length _, fun hp => ?_⟩
  have h1 := (truncateBars_sublist (buildRows ts os hs ls cs vs)).map Bar.time
  have h2 := buildRows_times_sublist ts os hs ls cs vs
  exact List.Pairwise.sublist (h1.trans h2) hp

/-- The per-candidate invariant: a successful fetch respects the bar cap,
and has strictly increasing times provided the source frames do. -/
theorem fetchOne_series_bound (S : Source) (sym : String) (r : String × List Bar)
    (h : fetchOne S sym = .ok r) :
    r.2.length ≤ BARS ∧
    ((∀ t, S.download sym = .ok t → t.times.Pairwise (fun a b : ℚ => a < b)) →
     (∀ t, S.history sym = .ok t → t.times.Pairwise (fun a b : ℚ => a < b)) →
     (r.2.map Bar.time).Pairwise (fun a b => a < b)) := by
  simp only [fetchOne] at h
  split at h
  · exact Except.noConfusion h
  · rename_i df0 hd
    split at h
    · exact Except.noConfusion h
    · split at h
      · cases h
        simp only [normalizeFrom]
        exact ⟨(normalized_bound _ _ _ _ _ _).1,
          fun hdl _ => (normalized_bound _ _ _ _ _ _).2 (hdl df0 hd)⟩
      · split at h
        · exact Except.noConfusion h
        · rename_i dfh hh
          split at h
          · exact Except.noConfusion h
          · split at h
            · cases h
              simp only [normalizeFrom]
              exact ⟨(normalized_bound _ _ _ _ _ _).1,
                fun _ hhist => (normalized_bound _ _ _ _ _ _).2 (hhist dfh hh)⟩
            · exact Except.noConfusion h

/-- A successful `fetchLoop` run comes from some candidate's `fetchOne`. -/
theorem fetchLoop_ok_mem (S : Source) :
    ∀ (cands : List String) (acc : Option String) (r : String × List Bar),
      fetchLoop S cands acc = .ok r → ∃ sym ∈ cands, fetchOne S sym = .ok r := by
  intro cands
  induction cands with
  | nil =>
    intro acc r h
    simp [fetchLoop] at h
  | cons s rest ih =>
    intro acc r h
    simp only [fetchLoop] at h
    rcases hfo : fetchOne S s with e | r2
    · rw [hfo] at h
      obtain ⟨sym, hmem, hsym⟩ := ih (some e) r h
      exact ⟨sym, List.mem_cons_of_mem s hmem, hsym⟩
    · rw [hfo] at h
      cases h
      exact ⟨s, List.mem_cons_self s rest, hfo⟩

/-- C9 (amended): every series the adapter returns has all five numeric
fields defined (by the `Bar` type, reflecting `dropna`) and at most `BARS`
rows; strictly increasing times are guaranteed only when the source frames
already have strictly increasing times — duplicates pass through as-is. -/
theorem fetch_df_series_invariant (S : Source) (cands : List String)
    (r : String × List Bar) (hok : fetch_df S cands = .ok r) :
    r.2.length ≤ BARS ∧
    ((∀ sym t, S.download sym = .ok t → t.times.Pairwise (fun a b : ℚ => a < b)) →
     (∀ sym t, S.history sym = .ok t → t.times.Pairwise (fun a b : ℚ => a < b)) →
     (r.2.map Bar.time).Pairwise (fun a b => a < b)) := by
  obtain ⟨sym, _, hsym⟩ := fetchLoop_ok_mem S cands none r hok
  have h2 := fetchOne_series_bound S sym r hsym
  exact ⟨h2.1, fun hdl hhist =>
    h2.2 (fun t ht => hdl sym t ht) (fun t ht => hhist sym t ht)⟩

/-- C9 witness: a source with increasing times yields a capped series with
strictly increasing bar times. -/
theorem fetch_df_series_invariant_witness :
    barsW.length ≤ BARS ∧ (barsW.map Bar.time).Pairwise (fun a b : ℚ => a < b) := by
  have h := fetch_df_series_invariant SW [("GC=F")] (("GC=F"), barsW)
    (by with_unfolding_all rfl)
  refine ⟨h.1, h.2 ?_ ?_⟩
  · intro sym t ht
    simp only [SW] at ht
    cases ht
    simp [tW]
  · intro sym t ht
    simp [SW] at ht

/-- C9 counterexample: a raw frame with duplicated timestamps passes
through the adapter unreconciled, so the returned series' times are not
strictly increasing. -/
theorem fetch_df_series_invariant_cex :
    fetch_df S9 [("GC=F")] = .ok (("GC=F"), bars9) ∧
    ¬ ((bars9.map Bar.time).Pairwise (fun a b : ℚ => a < b)) := by
  constructor
  · with_unfolding_all rfl
  · intro h
    simp [bars9] at h

/-- A defined cell of the difference column comes from defined cells of
the two operand columns and equals their difference. -/
theorem getO_optSub (xs : List (Option ℚ)) :
    ∀ (ys : List (Option ℚ)) (i : Nat) (z : ℚ),
      getO (optSub xs ys) i = some z →
      ∃ a b, getO xs i = some a ∧ getO ys i = some b ∧ z = a - b := by
  induction xs with
  | nil =>
    intro ys i z h
    simp [optSub, getO] at h
  | cons x xs ih =>
    intro ys i z h
    cases ys with
    | nil => simp [optSub, getO] at h
    | cons y ys =>
      cases i with
      | zero =>
        simp only [optSub, List.zipWith_cons_cons, getO, List.getElem?_cons_zero,
          Option.some_bind, id_eq] at h
        cases x with
        | none => exact Option.noConfusion h
        | some a =>
          cases y with
          | none => exact Option.noConfusion h
          | some b =>
            refine ⟨a, b, ?_, ?_, ?_⟩
            · simp [getO]
            · simp [getO]
            · exact (Option.some.injEq _ _).mp h.symm
      | succ n =>
        have h2 : getO (optSub xs ys) n = some z := by
          simpa [optSub, getO] using h
        have h3 := ih ys n z h2
        simpa [getO] using h3

/-- Every augmented row satisfies the construction invariant
`macd_hist = macd - macd_signal`. -/
theorem add_indicators_hist (P : IndParams) (bars : List Bar) (a : ABar)
    (ha : a ∈ add_indicators P bars) : a.macd_hist = a.macd - a.macd_signal := by
  simp only [add_indicators, List.mem_filterMap, List.mem_range] at ha
  obtain ⟨i, _, hf⟩ := ha
  split at hf
  · rename_i b x1 x2 x3 x4 x5 x6 x7 hb h1 h2 h3 h4 h5 h6 h7
    cases hf
    obtain ⟨p, q, hp, hq, hz⟩ := getO_optSub _ _ i x6 h6
    rw [hp] at h4
    rw [hq] at h5
    cases h4
    cases h5
    exact hz
  · exact Option.noConfusion hf

/-- C10: for bars produced by the indicator engine, the momentum-line
comparisons in the filters are implied by the histogram thresholds, so
`generate_signal` coincides with the simplified variant. -/
theorem generate_signal_macd_redundant (P : IndParams) (bars : List Bar)
    (prevBar nw : ABar)
    (hp : prevBar ∈ add_indicators P bars) (hn : nw ∈ add_indicators P bars) :
    generate_signal prevBar nw = generate_signal_simplified prevBar nw := by
  have hh := add_indicators_hist P bars nw hn
  have hbuy : (cross_up prevBar nw ∧ buy_ok nw) ↔
      (cross_up prevBar nw ∧ nw.rsi ≥ RSI_BUY_MIN ∧ nw.macd_hist ≥ MACD_HIST_MIN) := by
    unfold buy_ok
    constructor
    · rintro ⟨hc, h1, h2, _⟩
      exact ⟨hc, h1, h2⟩
    · rintro ⟨hc, h1, h2⟩
      refine ⟨hc, h1, h2, ?_⟩
      have hpos : (0:ℚ) < nw.macd - nw.macd_signal := by
        rw [← hh]
        exact lt_of_lt_of_le (by norm_num [MACD_HIST_MIN]) h2
      linarith
  have hsell : (cross_dn prevBar nw ∧ sell_ok nw) ↔
      (cross_dn prevBar nw ∧ nw.rsi ≤ RSI_SELL_MAX ∧ nw.macd_hist ≤ -MACD_HIST_MIN) := by
    unfold sell_ok
    constructor
    · rintro ⟨hc, h1, h2, _⟩
      exact ⟨hc, h1, h2⟩
    · rintro ⟨hc, h1, h2⟩
      refine ⟨hc, h1, h2, ?_⟩
      have hneg : nw.macd - nw.macd_signal < 0 := by
        rw [← hh]
        exact lt_of_le_of_lt h2 (by norm_num [MACD_HIST_MIN])
      linarith
  unfold generate_signal generate_signal_simplified
  exact if_congr hbuy rfl (if_congr hsell rfl rfl)

/-- C10 witness: on the concrete augmented pair from `add_indicators P0
barsW` the two variants agree. -/
theorem generate_signal_macd_redundant_witness :
    generate_signal aW1 aW2 = generate_signal_simplified aW1 aW2 :=
  generate_signal_macd_redundant P0 barsW aW1 aW2
    (by
      rw [show add_indicators P0 barsW = [aW1, aW2] by with_unfolding_all rfl]
      exact List.mem_cons_self _ _)
    (by
      rw [show add_indicators P0 barsW = [aW1, aW2] by with_unfolding_all rfl]
      exact List.mem_cons_of_mem _ (List.mem_cons_self _ _))

end XauOnce
